import Mathlib

/-!
Verification development for the `cloudantimport` streaming batch-dispatch
pipeline (Go). The definitions below are a shallow embedding of the Go
sources: `importer/cloudantimport.go` (the channel-based worker-pool
variant: `New`, `writeBufferWorker`, `statsCollector`, `checkTargetDatabase`,
`Run`), `importer/stats.go` (`Stats`, `StatsDataPoint`, `NewStats`,
`Stats.Save`, `Stats.Summary`) and `importer/logline.go` (`LogLine`,
`NewLogLine`).

Modelling conventions:
* a Cloudant document (`cloudantv1.Document`, an external SDK type built by
  `json.Unmarshal` + `SetProperties`) is an opaque type parameter `α`; the
  composite decode step is an oracle `parse : String → Option α`;
* Go maps used as counters (`map[int]int`, `map[string]int`) are total
  functions with default 0, matching Go's zero-value-on-missing-key
  increment semantics;
* `bufio.Reader.ReadString` over stdin is modelled by a list `reads` of the
  raw strings returned by successful reads (each newline-terminated read)
  together with `tailText`, the residual text returned alongside the
  non-nil error at end of input;
* goroutine side effects (channel sends, closes, waits, the final summary)
  are recorded as an explicit event trace.
-/

namespace CloudantImport

/-- Translation of `const bufferSize = 500` (cloudantimport.go): the maximum
size of the internal buffer of unwritten documents. -/
def bufferSize : Nat := 500

/-- Translation of Go `strings.TrimSuffix`: removes the given trailing
suffix once, if present. -/
def trimSuffixOnce (s suf : String) : String :=
  if suf.data.isSuffixOf s.data then ⟨s.data.take (s.data.length - suf.data.length)⟩ else s

/-- Translation of the two line-ending strips in `Run`:
`text = strings.TrimSuffix(text, "\n")` then
`text = strings.TrimSuffix(text, "\r")`. -/
def stripLineEnding (s : String) : String :=
  trimSuffixOnce (trimSuffixOnce s ("\n")) ("\r")

/-- Model of `cloudantv1.DocumentResult` restricted to the field the program
reads: `Error *string` (a nil-able pointer becomes `Option String`). -/
structure DocumentResult where
  error : Option String
deriving DecidableEq

/-- Translation of `StatsDataPoint` (stats.go): the result of a single
bulk-write API call. -/
structure StatsDataPoint where
  statusCode : Int
  result : List DocumentResult
  latency : Int
deriving DecidableEq

/-- Translation of `LogLine` (logline.go): the data for one per-batch output
line. `Date` (a `time.Time` captured via `time.Now()`) is modelled as an
abstract clock reading of type `Nat`. -/
structure LogLine where
  date : Nat
  statusCode : Int
  latencyMilliseconds : Int
  docsSuccess : Nat
  docsFailed : Nat
deriving DecidableEq

/-- Translation of `NewLogLine` (logline.go); the `time.Now()` call is
modelled by the explicit `now` argument. -/
def NewLogLine (now : Nat) (statusCode latency : Int) (success failed : Nat) : LogLine :=
  { date := now, statusCode := statusCode, latencyMilliseconds := latency,
    docsSuccess := success, docsFailed := failed }

/-- Translation of `Stats` (stats.go): status-code histogram, error-message
histogram, and totals of documents and batches written. The Go maps are
modelled as total functions defaulting to 0. The mutex only serialises
access and has no functional content. -/
structure Stats where
  statusCodes : Int → Nat
  errorMessages : String → Nat
  docsWritten : Nat
  batchesWritten : Nat

/-- Translation of `NewStats` (stats.go): empty histograms and zero totals. -/
def NewStats : Stats :=
  { statusCodes := fun _ => 0, errorMessages := fun _ => 0,
    docsWritten := 0, batchesWritten := 0 }

/-- Model of the Go counter-map increment `m[k]++` on an int-keyed map. -/
def bumpInt (f : Int → Nat) (k : Int) : Int → Nat :=
  fun x => if x = k then f x + 1 else f x

/-- Model of the Go counter-map increment `m[k]++` on a string-keyed map. -/
def bumpStr (f : String → Nat) (k : String) : String → Nat :=
  fun x => if x = k then f x + 1 else f x

/-- Translation of the `for _, v := range statsDataPoint.result` loop inside
`Stats.Save` (stats.go lines 49-56): threads the error-message histogram and
the per-batch `successCount` / `failureCount` accumulators through the
per-document results. -/
def saveResultsLoop : List DocumentResult → (String → Nat) → Nat → Nat →
    ((String → Nat) × Nat × Nat)
  | [], em, succ, fail => (em, succ, fail)
  | v :: rest, em, succ, fail =>
    match v.error with
    | some e => saveResultsLoop rest (bumpStr em e) succ (fail + 1)
    | none => saveResultsLoop rest em (succ + 1) fail

/-- Translation of `Stats.Save` (stats.go lines 42-64): bumps the status-code
count, folds the per-document results into the error histogram and the
per-batch success/failure counters, adds the document count and one batch,
and emits exactly one `LogLine` (via `NewLogLine`, whose `time.Now()` is the
`now` argument). Returns the updated stats together with that log line. -/
def Stats.save (now : Nat) (s : Stats) (p : StatsDataPoint) : Stats × LogLine :=
  let r := saveResultsLoop p.result s.errorMessages 0 0
  ({ statusCodes := bumpInt s.statusCodes p.statusCode,
     errorMessages := r.1,
     docsWritten := s.docsWritten + p.result.length,
     batchesWritten := s.batchesWritten + 1 },
   NewLogLine now p.statusCode p.latency r.2.1 r.2.2)

/-- Stats component of `Stats.Save`; the emitted log line carries no state,
so the aggregate evolution is this fold step. -/
def saveStats (s : Stats) (p : StatsDataPoint) : Stats :=
  (Stats.save 0 s p).1

/-- Number of per-document results carrying a given error message. -/
def countErr (rs : List DocumentResult) (m : String) : Nat :=
  (rs.filter (fun v => v.error = some m)).length

/-- Number of per-document successes (`v.Error == nil`). -/
def countSucc (rs : List DocumentResult) : Nat :=
  (rs.filter (fun v => v.error = none)).length

/-- Number of per-document failures (`v.Error != nil`). -/
def countFail (rs : List DocumentResult) : Nat :=
  (rs.filter (fun v => v.error ≠ none)).length

/-- A sealed batch handed to the job queue. `isCopy` records whether the
handoff went through the defensive clone (`clone := make(...); copy(clone,
ci.buffer[:ci.bufferLen]); ci.jobsChan <- clone`, Run lines 376-378) or sent
the working-buffer slice directly (`ci.jobsChan <- ci.buffer[:ci.bufferLen]`,
Run line 340). -/
structure Batch (α : Type) where
  docs : List α
  isCopy : Bool
deriving DecidableEq

/-- Observable events of `Run` (cloudantimport.go lines 311-394): batch
handoffs to `jobsChan`, channel closes, the two waits, and the final
`stats.Summary()` emission. -/
inductive Event (α : Type) where
  | enqueueBatch (b : Batch α)
  | closeJobs
  | workerWait
  | closeResults
  | closeErrors
  | collectorWait
  | summary
deriving DecidableEq

/-- Translation of the producer loop of `Run` (cloudantimport.go lines
330-382) as an event trace. `reads` are the raw strings returned by the
successful `ReadString` calls; `tailText` is the residual text returned by
the failing read at end of input (the code tests `err != nil` before using
`text`, so `tailText` is received but never inspected); `buf` is
`ci.buffer[:ci.bufferLen]`. On the failing read the partial buffer, if
non-empty, is sent without cloning, then `jobsChan` is closed. A line is
stripped of its line ending; empty text and text that fails to decode are
skipped; a decoded document extends the buffer, and a buffer reaching
`bufferSize` is cloned, enqueued, and reset. -/
def runLoopEvents (parse : String → Option α) :
    List String → String → List α → List (Event α)
  | [], _tailText, buf =>
    (if 0 < buf.length then [Event.enqueueBatch { docs := buf, isCopy := false }] else [])
      ++ [Event.closeJobs]
  | line :: rest, tailText, buf =>
    let text := stripLineEnding line
    if 0 < text.length then
      match parse text with
      | none => runLoopEvents parse rest tailText buf
      | some doc =>
        if (buf ++ [doc]).length = bufferSize then
          Event.enqueueBatch { docs := buf ++ [doc], isCopy := true }
            :: runLoopEvents parse rest tailText []
        else
          runLoopEvents parse rest tailText (buf ++ [doc])
    else
      runLoopEvents parse rest tailText buf

/-- Translation of `Run` after a successful pre-flight check: the producer
loop (which ends by closing the job queue), then `wgWorker.Wait()`,
`close(resultsChan)`, `close(errorsChan)`, `wgCollector.Wait()`, and
`stats.Summary()` (cloudantimport.go lines 330-392). -/
def runTrace (parse : String → Option α) (reads : List String) (tailText : String) :
    List (Event α) :=
  runLoopEvents parse reads tailText []
    ++ [Event.workerWait, Event.closeResults, Event.closeErrors,
        Event.collectorWait, Event.summary]

/-- Extracts the batch-handoff payload of an event, if any. -/
def Event.batch : Event α → Option (Batch α)
  | Event.enqueueBatch b => some b
  | _ => none

/-- Batches handed to the job queue during a run, in order. -/
def handoffs (parse : String → Option α) (reads : List String) (tailText : String) :
    List (Batch α) :=
  (runTrace parse reads tailText).filterMap Event.batch

/-- Documents successfully decoded from the stream, in order: for each read
line, the line ending is stripped, empty text is skipped, and `parse` (the
oracle for `json.Unmarshal` + `SetProperties`) either yields a document or
the line is dropped. -/
def validDocs (parse : String → Option α) (reads : List String) : List α :=
  reads.filterMap (fun line =>
    let text := stripLineEnding line
    if 0 < text.length then parse text else none)

/-- Batching skeleton of the producer loop, abstracted over the already
decoded document stream: same buffer/seal/flush discipline as
`runLoopEvents`, driven directly by the valid documents. -/
def chunkRun : List α → List α → List (Event α)
  | buf, [] =>
    (if 0 < buf.length then [Event.enqueueBatch { docs := buf, isCopy := false }] else [])
      ++ [Event.closeJobs]
  | buf, d :: ds =>
    if (buf ++ [d]).length = bufferSize then
      Event.enqueueBatch { docs := buf ++ [d], isCopy := true } :: chunkRun [] ds
    else
      chunkRun (buf ++ [d]) ds

/-- Full (capacity-`bufferSize`) batches produced by the batching
discipline, starting from working buffer `buf` over document stream `ds`. -/
def fullChunkList : List α → List α → List (List α)
  | _buf, [] => []
  | buf, d :: ds =>
    if (buf ++ [d]).length = bufferSize then
      (buf ++ [d]) :: fullChunkList [] ds
    else
      fullChunkList (buf ++ [d]) ds

/-- Residual working-buffer content at end of stream (the final partial
batch, possibly empty). -/
def leftover : List α → List α → List α
  | buf, [] => buf
  | buf, d :: ds =>
    if (buf ++ [d]).length = bufferSize then
      leftover [] ds
    else
      leftover (buf ++ [d]) ds

/-- Characterisation of the per-document result loop of `Stats.Save`: it adds
the per-message error counts to the histogram and the success/failure counts
to the accumulators. -/
theorem saveResultsLoop_eq (rs : List DocumentResult) (em : String → Nat) (a b : Nat) :
    saveResultsLoop rs em a b =
      (fun m => em m + countErr rs m, a + countSucc rs, b + countFail rs) := by
  induction rs generalizing em a b with
  | nil => simp [saveResultsLoop, countErr, countSucc, countFail]
  | cons v rest ih =>
    cases hv : v.error with
    | some e =>
      simp only [saveResultsLoop, hv, ih]
      refine Prod.ext ?_ (Prod.ext ?_ ?_)
      · funext m
        simp only [bumpStr, countErr, List.filter_cons, hv]
        by_cases hm : e = m
        · subst hm; simp; omega
        · have : ¬ (some e = some m) := by simpa using hm
          simp [hm, this, Ne.symm hm]
      · simp [countSucc, List.filter_cons, hv]
      · simp only [countFail, List.filter_cons, hv]
        simp
        omega
    | none =>
      simp only [saveResultsLoop, hv, ih]
      refine Prod.ext ?_ (Prod.ext ?_ ?_)
      · funext m
        simp [countErr, List.filter_cons, hv]
      · simp [countSucc, List.filter_cons, hv]
        omega
      · simp [countFail, List.filter_cons, hv]

/-- Each per-document result is either a success or a failure, so the two
counts partition the result list. -/
theorem countSucc_add_countFail (rs : List DocumentResult) :
    countSucc rs + countFail rs = rs.length := by
  induction rs with
  | nil => simp [countSucc, countFail]
  | cons v rest ih =>
    cases hv : v.error <;>
      simp [countSucc, countFail, List.filter_cons, hv] at ih ⊢ <;> omega

/-- C7: one `Stats.Save` call on a consumed write outcome bumps the
outcome's status-code count by one (and no other status-code count), adds
each per-document error message to the error-category histogram (per-document
successes touch no stats counter but are tallied in the per-batch success
count), adds the outcome's document count (the length of the per-document
result list) to the documents total, adds one to the batches total, and
emits exactly one log line (the single `LogLine` of the returned pair)
carrying the timestamp (`time.Now()`, here `now`), the status code, the
latency, and the per-batch success and failure counts, which partition the
result list. -/
theorem save_datapoint_effect (now : Nat) (s : Stats) (p : StatsDataPoint) :
    (∀ c, (Stats.save now s p).1.statusCodes c
        = s.statusCodes c + (if c = p.statusCode then 1 else 0))
    ∧ (∀ m, (Stats.save now s p).1.errorMessages m
        = s.errorMessages m + countErr p.result m)
    ∧ (Stats.save now s p).1.docsWritten = s.docsWritten + p.result.length
    ∧ (Stats.save now s p).1.batchesWritten = s.batchesWritten + 1
    ∧ (Stats.save now s p).2 =
        { date := now, statusCode := p.statusCode, latencyMilliseconds := p.latency,
          docsSuccess := countSucc p.result, docsFailed := countFail p.result }
    ∧ countSucc p.result + countFail p.result = p.result.length := by
  refine ⟨?_, ?_, ?_, ?_, ?_, countSucc_add_countFail p.result⟩
  · intro c
    simp only [Stats.save, saveResultsLoop_eq, bumpInt]
    by_cases hc : c = p.statusCode <;> simp [hc]
  · intro m
    simp [Stats.save, saveResultsLoop_eq]
  · simp [Stats.save]
  · simp [Stats.save]
  · simp [Stats.save, saveResultsLoop_eq, NewLogLine]

/-- Two `saveStats` steps commute: all updates are pointwise additions into
histograms and totals. -/
theorem saveStats_comm (s : Stats) (p q : StatsDataPoint) :
    saveStats (saveStats s p) q = saveStats (saveStats s q) p := by
  simp only [saveStats, Stats.save, saveResultsLoop_eq, bumpInt, Stats.mk.injEq]
  refine ⟨?_, ?_, by omega, trivial⟩
  · funext x
    simp only [bumpInt]
    split_ifs <;> omega
  · funext m; omega

/-- C2: folding `Stats.Save` over any reordering of a fixed multiset of
per-batch write outcomes yields identical final `AggregatedStats` (status
code histogram, error-category histogram, documents total, batches total). -/
theorem stats_aggregation_commutes (s₀ : Stats) (l₁ l₂ : List StatsDataPoint)
    (h : l₁.Perm l₂) :
    l₁.foldl saveStats s₀ = l₂.foldl saveStats s₀ := by
  induction h generalizing s₀ with
  | nil => rfl
  | cons x _h ih => simpa using ih (saveStats s₀ x)
  | swap x y l => simp only [List.foldl]; rw [saveStats_comm]
  | trans _h₁ _h₂ ih₁ ih₂ => rw [ih₁, ih₂]

/-- Witness for C2 at a concrete pair of reordered outcome lists. -/
theorem stats_aggregation_commutes_witness :
    (List.Perm
        [({ statusCode := 201, result := [{ error := none }], latency := 7 } : StatsDataPoint),
         { statusCode := 429, result := [{ error := some ("conflict") }], latency := 9 }]
        [({ statusCode := 429, result := [{ error := some ("conflict") }], latency := 9 } : StatsDataPoint),
         { statusCode := 201, result := [{ error := none }], latency := 7 }])
    ∧ ([({ statusCode := 201, result := [{ error := none }], latency := 7 } : StatsDataPoint),
         { statusCode := 429, result := [{ error := some ("conflict") }], latency := 9 }].foldl
            saveStats NewStats
        = [({ statusCode := 429, result := [{ error := some ("conflict") }], latency := 9 } : StatsDataPoint),
         { statusCode := 201, result := [{ error := none }], latency := 7 }].foldl
            saveStats NewStats) := by
  refine ⟨by decide, stats_aggregation_commutes NewStats _ _ (by decide)⟩

/-- The producer loop is the batching skeleton applied to the decoded
document stream: line-ending stripping, blank-line skipping and decode
failures only filter the stream, and the residual `tailText` of the failing
read never influences the trace. -/
theorem runLoopEvents_eq_chunkRun (parse : String → Option α) (reads : List String)
    (tailText : String) (buf : List α) :
    runLoopEvents parse reads tailText buf = chunkRun buf (validDocs parse reads) := by
  induction reads generalizing buf with
  | nil => rfl
  | cons line rest ih =>
    simp only [runLoopEvents, validDocs, List.filterMap_cons]
    by_cases h : 0 < (stripLineEnding line).length
    · simp only [if_pos h]
      cases hp : parse (stripLineEnding line) with
      | none => exact ih buf
      | some doc =>
        by_cases hfull : (buf ++ [doc]).length = bufferSize
        · simp only [if_pos hfull, chunkRun, ih]
          rfl
        · simp only [if_neg hfull, chunkRun, ih]
          rfl
    · simp only [if_neg h]
      exact ih buf

/-- Structure of the batching skeleton: the full batches are enqueued as
clones, a non-empty leftover is enqueued uncloned, and the job queue is then
closed. -/
theorem chunkRun_eq (ds : List α) (buf : List α) :
    chunkRun buf ds =
      ((fullChunkList buf ds).map (fun c => Event.enqueueBatch { docs := c, isCopy := true })
        ++ (if (leftover buf ds).isEmpty then []
            else [Event.enqueueBatch { docs := leftover buf ds, isCopy := false }]))
        ++ [Event.closeJobs] := by
  induction ds generalizing buf with
  | nil =>
    cases buf with
    | nil => simp [chunkRun, fullChunkList, leftover]
    | cons x xs => simp [chunkRun, fullChunkList, leftover]
  | cons d ds ih =>
    by_cases hfull : (buf ++ [d]).length = bufferSize
    · simp only [chunkRun, fullChunkList, leftover, if_pos hfull, List.map_cons,
        List.cons_append, ih]
    · simp only [chunkRun, fullChunkList, leftover, if_neg hfull, ih]

/-- Every full chunk has exactly `bufferSize` documents. -/
theorem fullChunkList_mem_length (ds : List α) (buf : List α) :
    ∀ c ∈ fullChunkList buf ds, c.length = bufferSize := by
  induction ds generalizing buf with
  | nil => simp [fullChunkList]
  | cons d ds ih =>
    intro c hc
    by_cases hfull : (buf ++ [d]).length = bufferSize
    · simp only [fullChunkList, if_pos hfull, List.mem_cons] at hc
      rcases hc with rfl | hc
      · exact hfull
      · exact ih [] c hc
    · simp only [fullChunkList, if_neg hfull] at hc
      exact ih (buf ++ [d]) c hc

/-- Number of full chunks: the total document count divided by the
threshold, provided the working buffer starts below the threshold. -/
theorem fullChunkList_length (ds : List α) (buf : List α) (h : buf.length < bufferSize) :
    (fullChunkList buf ds).length = (buf.length + ds.length) / bufferSize := by
  induction ds generalizing buf with
  | nil =>
    simp only [fullChunkList, List.length_nil, Nat.add_zero]
    exact (Nat.div_eq_of_lt h).symm
  | cons d ds ih =>
    by_cases hfull : (buf ++ [d]).length = bufferSize
    · have hb : buf.length + 1 = bufferSize := by simpa using hfull
      simp only [fullChunkList, if_pos hfull, List.length_cons]
      rw [ih ([] : List α) (by simp only [List.length_nil, bufferSize]; omega)]
      simp only [List.length_nil, Nat.zero_add]
      have ht : buf.length + (ds.length + 1) = ds.length + bufferSize := by omega
      rw [ht, Nat.add_div_right _ (by simp only [bufferSize]; omega : 0 < bufferSize)]
    · have hlt : (buf ++ [d]).length < bufferSize := by
        simp only [List.length_append, List.length_cons, List.length_nil] at hfull ⊢
        omega
      simp only [fullChunkList, if_neg hfull]
      rw [ih (buf ++ [d]) hlt]
      simp only [List.length_append, List.length_cons, List.length_nil]
      congr 1
      omega

/-- Size of the leftover batch: the total document count modulo the
threshold, provided the working buffer starts below the threshold. -/
theorem leftover_length (ds : List α) (buf : List α) (h : buf.length < bufferSize) :
    (leftover buf ds).length = (buf.length + ds.length) % bufferSize := by
  induction ds generalizing buf with
  | nil =>
    simp only [leftover, List.length_nil, Nat.add_zero]
    exact (Nat.mod_eq_of_lt h).symm
  | cons d ds ih =>
    by_cases hfull : (buf ++ [d]).length = bufferSize
    · have hb : buf.length + 1 = bufferSize := by simpa using hfull
      simp only [leftover, if_pos hfull]
      rw [ih ([] : List α) (by simp only [List.length_nil, bufferSize]; omega)]
      simp only [List.length_nil, Nat.zero_add, List.length_cons]
      have ht : buf.length + (ds.length + 1) = ds.length + bufferSize := by omega
      rw [ht, Nat.add_mod_right]
    · have hlt : (buf ++ [d]).length < bufferSize := by
        simp only [List.length_append, List.length_cons, List.length_nil] at hfull ⊢
        omega
      simp only [leftover, if_neg hfull]
      rw [ih (buf ++ [d]) hlt]
      simp only [List.length_append, List.length_cons, List.length_nil]
      congr 1
      omega

/-- Content preservation: concatenating the full chunks and the leftover
recovers the working buffer followed by the document stream, in order. -/
theorem fullChunkList_join_leftover (ds : List α) (buf : List α) :
    (fullChunkList buf ds).flatten ++ leftover buf ds = buf ++ ds := by
  induction ds generalizing buf with
  | nil => simp [fullChunkList, leftover]
  | cons d ds ih =>
    by_cases hfull : (buf ++ [d]).length = bufferSize
    · simp only [fullChunkList, leftover, if_pos hfull, List.flatten_cons, List.append_assoc]
      rw [ih []]
      simp
    · simp only [fullChunkList, leftover, if_neg hfull, ih (buf ++ [d])]
      simp

/-- Mapping through a total `some` under `filterMap` keeps every element. -/
theorem filterMap_some_comp (f : α → β) (l : List α) :
    l.filterMap (fun x => some (f x)) = l.map f := by
  induction l with
  | nil => rfl
  | cons x xs ih => simp [List.filterMap_cons, ih]

/-- Batches handed to the queue: the full clones followed, when the final
working buffer is non-empty, by the uncloned final flush. -/
theorem handoffs_eq (parse : String → Option α) (reads : List String) (tailText : String) :
    handoffs parse reads tailText =
      (fullChunkList [] (validDocs parse reads)).map
          (fun c => { docs := c, isCopy := true })
        ++ (if (leftover [] (validDocs parse reads)).isEmpty then []
            else [{ docs := leftover [] (validDocs parse reads), isCopy := false }]) := by
  unfold handoffs runTrace
  rw [runLoopEvents_eq_chunkRun, chunkRun_eq]
  simp only [List.filterMap_append, List.filterMap_map]
  by_cases h : (leftover [] (validDocs parse reads)).isEmpty <;>
    simp [h, Event.batch, Function.comp_def, List.filterMap_cons, filterMap_some_comp]

/-- C1: over an input stream containing K valid (parseable, non-empty)
records and batch threshold `bufferSize` = 500, the pipeline hands off
exactly ⌈K/500⌉ batches; the batch sizes read 500, …, 500 followed by
K mod 500 when K is not a multiple of 500 (so every batch but the last has
exactly 500 documents, and the last has K mod 500, or 500 when K is a
multiple of 500); no batch is ever empty, so no empty trailing batch is
enqueued. -/
theorem batch_sizing (parse : String → Option α) (reads : List String) (tailText : String) :
    ((handoffs parse reads tailText).map (fun b => b.docs.length)
        = List.replicate ((validDocs parse reads).length / bufferSize) bufferSize
          ++ (if (validDocs parse reads).length % bufferSize = 0 then []
              else [(validDocs parse reads).length % bufferSize]))
    ∧ (handoffs parse reads tailText).length
        = ((validDocs parse reads).length + (bufferSize - 1)) / bufferSize
    ∧ (∀ b ∈ (handoffs parse reads tailText).dropLast, b.docs.length = bufferSize)
    ∧ (∀ b ∈ handoffs parse reads tailText, 0 < b.docs.length) := by
  have hbuf : ([] : List α).length < bufferSize := by
    simp only [List.length_nil, bufferSize]; omega
  have hF : ∀ c ∈ fullChunkList [] (validDocs parse reads), c.length = bufferSize :=
    fullChunkList_mem_length _ _
  have hFlen : (fullChunkList [] (validDocs parse reads)).length
      = (validDocs parse reads).length / bufferSize := by
    simpa using fullChunkList_length (validDocs parse reads) [] hbuf
  have hLlen : (leftover [] (validDocs parse reads)).length
      = (validDocs parse reads).length % bufferSize := by
    simpa using leftover_length (validDocs parse reads) [] hbuf
  have hmap : (fullChunkList [] (validDocs parse reads)).map List.length
      = List.replicate ((validDocs parse reads).length / bufferSize) bufferSize := by
    rw [List.eq_replicate_iff]
    refine ⟨by simp [hFlen], ?_⟩
    intro b hb
    obtain ⟨c, hc, rfl⟩ := List.mem_map.1 hb
    exact hF c hc
  have h1 : (handoffs parse reads tailText).map (fun b => b.docs.length)
      = List.replicate ((validDocs parse reads).length / bufferSize) bufferSize
          ++ (if (validDocs parse reads).length % bufferSize = 0 then []
              else [(validDocs parse reads).length % bufferSize]) := by
    rw [handoffs_eq]
    by_cases hL : (leftover [] (validDocs parse reads)).isEmpty
    · have h0 : (validDocs parse reads).length % bufferSize = 0 := by
        rw [← hLlen]
        exact List.isEmpty_iff_length_eq_zero.1 hL
      simp only [hL, if_pos, h0, if_pos rfl, List.append_nil, List.map_map, ← hmap,
        List.map_append, List.map_nil, if_true]
      rfl
    · have h0 : (validDocs parse reads).length % bufferSize ≠ 0 := by
        rw [← hLlen]
        intro hz
        exact hL (List.isEmpty_iff_length_eq_zero.2 hz)
      simp only [hL, if_neg, h0, List.map_append, List.map_map, ← hmap, if_false,
        Bool.false_eq_true, List.map_cons, List.map_nil, hLlen]
      rfl
  refine ⟨h1, ?_, ?_, ?_⟩
  · have hlen := congrArg List.length h1
    simp only [List.length_map, List.length_append, List.length_replicate] at hlen
    rw [hlen]
    by_cases h0 : (validDocs parse reads).length % bufferSize = 0
    · rw [if_pos h0]
      simp only [List.length_nil, bufferSize] at h0 ⊢
      omega
    · rw [if_neg h0]
      simp only [List.length_cons, List.length_nil, bufferSize] at h0 ⊢
      omega
  · intro b hb
    rw [handoffs_eq] at hb
    by_cases hL : (leftover [] (validDocs parse reads)).isEmpty
    · simp only [hL, if_pos, List.append_nil, if_true] at hb
      have hb' := List.mem_of_mem_dropLast hb
      obtain ⟨c, hc, rfl⟩ := List.mem_map.1 hb'
      exact hF c hc
    · simp only [hL, if_neg, Bool.false_eq_true, if_false, List.dropLast_concat] at hb
      obtain ⟨c, hc, rfl⟩ := List.mem_map.1 hb
      exact hF c hc
  · intro b hb
    rw [handoffs_eq] at hb
    rcases List.mem_append.1 hb with hb | hb
    · obtain ⟨c, hc, rfl⟩ := List.mem_map.1 hb
      have := hF c hc
      simp only [this, bufferSize]
      omega
    · by_cases hL : (leftover [] (validDocs parse reads)).isEmpty
      · simp [hL] at hb
      · simp only [hL, Bool.false_eq_true, if_false, List.mem_singleton] at hb
        subst hb
        simp only [List.length_pos]
        exact fun hz => hL (by simp [hz])

/-- C3 counterexample: with a single valid record, the one batch handed to
the job queue is the final flush `ci.jobsChan <- ci.buffer[:ci.bufferLen]`
(Run line 340), which passes the working-buffer slice itself — no defensive
copy — so the claim that every handed-off batch is an independent copy of
the working buffer fails. -/
theorem final_flush_not_copied :
    ((handoffs (fun s => if s = "a" then some (0 : Nat) else none) (["a\n"]) ("")).all
        (fun b => b.isCopy)) = false := by
  decide

/-- C3 amended: every full batch sealed when the buffer reaches capacity
`bufferSize` is an independent clone of the working buffer, and every batch
except possibly the final one is such a clone; only the final partial batch
flushed on stream end is handed as a direct (uncloned) slice of the working
buffer, after which the producer performs no further buffer writes. -/
theorem sealed_batches_are_copies (parse : String → Option α) (reads : List String)
    (tailText : String) :
    (∀ b ∈ handoffs parse reads tailText, b.docs.length = bufferSize → b.isCopy = true)
    ∧ (∀ b ∈ (handoffs parse reads tailText).dropLast, b.isCopy = true) := by
  have hbuf : ([] : List α).length < bufferSize := by
    simp only [List.length_nil, bufferSize]; omega
  have hLlen : (leftover [] (validDocs parse reads)).length
      = (validDocs parse reads).length % bufferSize := by
    simpa using leftover_length (validDocs parse reads) [] hbuf
  constructor
  · intro b hb hfull
    rw [handoffs_eq] at hb
    rcases List.mem_append.1 hb with hb | hb
    · obtain ⟨c, _hc, rfl⟩ := List.mem_map.1 hb
      rfl
    · by_cases hL : (leftover [] (validDocs parse reads)).isEmpty
      · simp [hL] at hb
      · simp only [hL, Bool.false_eq_true, if_false, List.mem_singleton] at hb
        subst hb
        exfalso
        have hmod : (validDocs parse reads).length % bufferSize < bufferSize :=
          Nat.mod_lt _ (by simp only [bufferSize]; omega)
        rw [← hLlen] at hmod
        simp only [hfull] at hmod
        exact Nat.lt_irrefl _ hmod
  · intro b hb
    rw [handoffs_eq] at hb
    by_cases hL : (leftover [] (validDocs parse reads)).isEmpty
    · simp only [hL, if_pos, List.append_nil, if_true] at hb
      have hb' := List.mem_of_mem_dropLast hb
      obtain ⟨c, _hc, rfl⟩ := List.mem_map.1 hb'
      rfl
    · simp only [hL, if_neg, Bool.false_eq_true, if_false, List.dropLast_concat] at hb
      obtain ⟨c, _hc, rfl⟩ := List.mem_map.1 hb
      rfl

/-- Final statistics of a run whose every bulk-write call succeeds: the
external client (`PostBulkDocs`) is an oracle from a batch's documents to
its `StatsDataPoint`, and the collector folds `Stats.Save` over the
outcomes of the handed-off batches. -/
def pipelineStats (client : List α → StatsDataPoint) (s₀ : Stats)
    (parse : String → Option α) (reads : List String) (tailText : String) : Stats :=
  ((handoffs parse reads tailText).map (fun b => client b.docs)).foldl saveStats s₀

/-- C4: a line that is empty after stripping its line ending, or that fails
to decode as JSON, produces no document: the entire run trace — every batch
handed off, every channel action — is identical to the run without that
line, and therefore so are the final statistics: no error-category counter
and neither the documents nor the batches total ever reflects the dropped
line. -/
theorem drop_policy (parse : String → Option α) (xs ys : List String)
    (l tailText : String) (client : List α → StatsDataPoint) (s₀ : Stats)
    (h : stripLineEnding l = "" ∨ parse (stripLineEnding l) = none) :
    runTrace parse (xs ++ l :: ys) tailText = runTrace parse (xs ++ ys) tailText
    ∧ pipelineStats client s₀ parse (xs ++ l :: ys) tailText
        = pipelineStats client s₀ parse (xs ++ ys) tailText := by
  have hv : validDocs parse (xs ++ l :: ys) = validDocs parse (xs ++ ys) := by
    simp only [validDocs, List.filterMap_append, List.filterMap_cons]
    rcases h with h | h
    · simp [h]
    · by_cases hl : 0 < (stripLineEnding l).length <;> simp [hl, h]
  have ht : runTrace parse (xs ++ l :: ys) tailText = runTrace parse (xs ++ ys) tailText := by
    unfold runTrace
    rw [runLoopEvents_eq_chunkRun, runLoopEvents_eq_chunkRun, hv]
  refine ⟨ht, ?_⟩
  unfold pipelineStats handoffs
  rw [ht]

/-- Witness for C4 at a concrete unparseable line. -/
theorem drop_policy_witness :
    (stripLineEnding ("nope\n") = "" ∨
        (fun s => if s = "ok" then some (0 : Nat) else none) (stripLineEnding ("nope\n")) = none)
    ∧ runTrace (fun s => if s = "ok" then some (0 : Nat) else none)
          (["ok\n"] ++ ("nope\n") :: []) ("")
        = runTrace (fun s => if s = "ok" then some (0 : Nat) else none) (["ok\n"] ++ []) ("")
    ∧ pipelineStats (fun _ => { statusCode := 201, result := [], latency := 0 }) NewStats
          (fun s => if s = "ok" then some (0 : Nat) else none)
          (["ok\n"] ++ ("nope\n") :: []) ("")
        = pipelineStats (fun _ => { statusCode := 201, result := [], latency := 0 }) NewStats
          (fun s => if s = "ok" then some (0 : Nat) else none) (["ok\n"] ++ []) ("") := by
  have h := drop_policy (fun s => if s = "ok" then some (0 : Nat) else none)
    (["ok\n"]) ([]) ("nope\n") ("")
    (fun _ => { statusCode := 201, result := [], latency := 0 }) NewStats
    (Or.inr (by decide))
  exact ⟨Or.inr (by decide), h.1, h.2⟩

/-- C10: an unterminated final line is discarded entirely. The failing
`ReadString` returns the residual text together with a non-nil error, and
`Run` tests the error before ever touching the text, so the whole run —
batches handed off and all channel actions — does not depend on that
residual text, and the documents written are exactly those decoded from the
newline-terminated lines. -/
theorem unterminated_line_discarded (parse : String → Option α) (reads : List String)
    (t₁ t₂ : String) :
    runTrace parse reads t₁ = runTrace parse reads t₂
    ∧ ((handoffs parse reads t₁).map Batch.docs).flatten = validDocs parse reads := by
  constructor
  · unfold runTrace
    rw [runLoopEvents_eq_chunkRun, runLoopEvents_eq_chunkRun]
  · rw [handoffs_eq]
    by_cases hL : (leftover [] (validDocs parse reads)).isEmpty
    · have hnil : leftover [] (validDocs parse reads) = [] := List.isEmpty_iff.1 hL
      have := fullChunkList_join_leftover (validDocs parse reads) ([] : List α)
      rw [hnil, List.append_nil, List.nil_append] at this
      simp only [hL, if_pos, List.append_nil, if_true, List.map_map]
      simpa [Function.comp_def] using this
    · have := fullChunkList_join_leftover (validDocs parse reads) ([] : List α)
      rw [List.nil_append] at this
      simp only [hL, Bool.false_eq_true, if_false, List.map_append, List.map_map,
        List.map_cons, List.map_nil, List.flatten_append]
      simpa [Function.comp_def] using this

/-- Outcome of the bulk-write attempt a worker makes for one job: the oracle
for `service.NewBulkDocs` (which can fail to encode the batch) followed by
`service.PostBulkDocs` (which can fail at the call level after the client's
internal retries) and the latency measurement. -/
inductive WriteCall where
  | ok (statusCode : Int) (result : List DocumentResult) (latency : Int)
  | encodeErr (msg : String)
  | postErr (msg : String)
deriving DecidableEq

/-- Did the bulk-write call succeed at the call level. -/
def WriteCall.isOk : WriteCall → Bool
  | WriteCall.ok _ _ _ => true
  | WriteCall.encodeErr _ => false
  | WriteCall.postErr _ => false

/-- Error message of a failed call (empty for a successful one). -/
def WriteCall.errMsg : WriteCall → String
  | WriteCall.ok _ _ _ => ""
  | WriteCall.encodeErr e => e
  | WriteCall.postErr e => e

/-- Data point of a successful call (dummy values for a failed one; only
used under an `isOk` hypothesis). -/
def WriteCall.dataPoint : WriteCall → StatsDataPoint
  | WriteCall.ok c r l => { statusCode := c, result := r, latency := l }
  | WriteCall.encodeErr _ => { statusCode := 0, result := [], latency := 0 }
  | WriteCall.postErr _ => { statusCode := 0, result := [], latency := 0 }

/-- A message a worker sends back: a `StatsDataPoint` on `resultsChan` or an
error on `errorsChan`. -/
inductive WorkerMsg where
  | res (p : StatsDataPoint)
  | err (msg : String)
deriving DecidableEq

/-- Message a worker emits for one `WriteCall` outcome. -/
def WriteCall.toMsg : WriteCall → WorkerMsg
  | WriteCall.ok c r l => WorkerMsg.res { statusCode := c, result := r, latency := l }
  | WriteCall.encodeErr e => WorkerMsg.err e
  | WriteCall.postErr e => WorkerMsg.err e

/-- Data point carried by a result message. -/
def WorkerMsg.point : WorkerMsg → Option StatsDataPoint
  | WorkerMsg.res p => some p
  | WorkerMsg.err _ => none

/-- Translation of `writeBufferWorker` (cloudantimport.go lines 244-274):
one worker's loop over the jobs it receives from `jobsChan`. For each job it
performs the bulk-write call (the `client` oracle); on an encoding error or
a call error it sends the error on `errorsChan` and returns — terminating
the worker, so later jobs produce nothing — otherwise it sends the outcome's
`StatsDataPoint` on `resultsChan` and loops. The returned list is the
sequence of messages this worker sends. -/
def writeBufferWorker (client : List α → WriteCall) : List (List α) → List WorkerMsg
  | [] => []
  | job :: rest =>
    match client job with
    | WriteCall.ok c r l =>
      WorkerMsg.res { statusCode := c, result := r, latency := l }
        :: writeBufferWorker client rest
    | WriteCall.encodeErr e => [WorkerMsg.err e]
    | WriteCall.postErr e => [WorkerMsg.err e]

/-- Result of the collector goroutine: either both channels drained with the
final stats and emitted log lines, or a panic (`panic(fmt.Sprintf("ERROR:
%v", err))`) that aborts the run, carrying the stats accumulated so far. -/
inductive CollectorResult where
  | drained (s : Stats) (logs : List LogLine)
  | panicked (s : Stats) (logs : List LogLine) (msg : String)

/-- Stats held when the collector stopped. -/
def CollectorResult.stats : CollectorResult → Stats
  | CollectorResult.drained s _ => s
  | CollectorResult.panicked s _ _ => s

/-- The final summary `Run` prints: present only when the collector drained
its channels without a fatal error; a panic kills the process before
`stats.Summary()` runs. -/
def pipelineSummary : CollectorResult → Option Stats
  | CollectorResult.drained s _ => some s
  | CollectorResult.panicked _ _ _ => none

/-- Translation of `statsCollector` (cloudantimport.go lines 278-297): the
single consumer of `resultsChan` and `errorsChan`. A result is folded into
the stats via `Stats.Save` (which also emits one log line); a received
error panics, aborting the run; exhausting the messages corresponds to the
channels being closed and drained. -/
def statsCollector (now : Nat) : Stats → List LogLine → List WorkerMsg → CollectorResult
  | s, logs, [] => CollectorResult.drained s logs
  | s, logs, WorkerMsg.res p :: rest =>
    statsCollector now (Stats.save now s p).1 (logs ++ [(Stats.save now s p).2]) rest
  | s, logs, WorkerMsg.err e :: _rest =>
    CollectorResult.panicked s logs ("ERROR: " ++ e)

/-- Stats component of `Stats.Save` is independent of the log-line clock. -/
theorem save_fst_now (now : Nat) (s : Stats) (p : StatsDataPoint) :
    (Stats.save now s p).1 = saveStats s p := rfl

/-- Log lines the collector appends while consuming a stream of result
messages. -/
def collectLogs (now : Nat) : Stats → List StatsDataPoint → List LogLine
  | _, [] => []
  | s, p :: ps => (Stats.save now s p).2 :: collectLogs now (saveStats s p) ps

/-- The collector folds `Stats.Save` over a prefix of result messages. -/
theorem statsCollector_on_results (now : Nat) (ps : List StatsDataPoint) :
    ∀ (s : Stats) (logs : List LogLine) (rest : List WorkerMsg),
      statsCollector now s logs (ps.map WorkerMsg.res ++ rest)
        = statsCollector now (ps.foldl saveStats s) (logs ++ collectLogs now s ps) rest := by
  induction ps with
  | nil => intro s logs rest; simp [collectLogs]
  | cons p ps ih =>
    intro s logs rest
    simp only [List.map_cons, List.cons_append, statsCollector, collectLogs,
      save_fst_now, List.foldl_cons, List.append_eq]
    rw [ih]
    simp

/-- On an all-successful job prefix followed by a failing job, the worker
emits the successful outcomes, then the error, and nothing more. -/
theorem writeBufferWorker_fatal (client : List α → WriteCall) (good : List (List α))
    (bad : List α) (more : List (List α))
    (hgood : ∀ j ∈ good, (client j).isOk = true)
    (hbad : (client bad).isOk = false) :
    writeBufferWorker client (good ++ bad :: more)
      = (good.map (fun j => (client j).dataPoint)).map WorkerMsg.res
          ++ [WorkerMsg.err ((client bad).errMsg)] := by
  induction good with
  | nil =>
    simp only [List.nil_append, List.map_nil]
    cases hc : client bad with
    | ok c r l => rw [hc] at hbad; simp [WriteCall.isOk] at hbad
    | encodeErr e => simp [writeBufferWorker, hc, WriteCall.errMsg]
    | postErr e => simp [writeBufferWorker, hc, WriteCall.errMsg]
  | cons j rest ih =>
    have hj : (client j).isOk = true := hgood j (List.mem_cons_self j rest)
    cases hc : client j with
    | ok c r l =>
      have hd : (WriteCall.ok c r l).dataPoint
          = ({ statusCode := c, result := r, latency := l } : StatsDataPoint) := rfl
      simp only [List.cons_append, writeBufferWorker, hc, List.map_cons, List.append_eq, hd]
      rw [ih (fun x hx => hgood x (List.mem_cons_of_mem j hx))]
    | encodeErr e => rw [hc] at hj; simp [WriteCall.isOk] at hj
    | postErr e => rw [hc] at hj; simp [WriteCall.isOk] at hj

/-- C5: a call-level write failure is fatal. The worker that hit it sends
the error to `errorsChan` and terminates — its message stream is the
successful outcomes before the failure, then the error, and nothing for any
later job. The collector, on receiving that error, panics (aborting the
run): the final stats are the fold of `Stats.Save` over only the successful
outcomes — the failed batch's documents are absorbed into no statistics —
and no final summary is printed. -/
theorem fatal_write_error_aborts (now : Nat) (client : List α → WriteCall)
    (good : List (List α)) (bad : List α) (more : List (List α)) (s₀ : Stats)
    (hgood : ∀ j ∈ good, (client j).isOk = true)
    (hbad : (client bad).isOk = false) :
    writeBufferWorker client (good ++ bad :: more)
        = (good.map (fun j => (client j).dataPoint)).map WorkerMsg.res
            ++ [WorkerMsg.err ((client bad).errMsg)]
    ∧ pipelineSummary
        (statsCollector now s₀ [] (writeBufferWorker client (good ++ bad :: more))) = none
    ∧ (statsCollector now s₀ [] (writeBufferWorker client (good ++ bad :: more))).stats
        = (good.map (fun j => (client j).dataPoint)).foldl saveStats s₀ := by
  have hw := writeBufferWorker_fatal client good bad more hgood hbad
  refine ⟨hw, ?_, ?_⟩
  · rw [hw, statsCollector_on_results]
    simp [statsCollector, pipelineSummary]
  · rw [hw, statsCollector_on_results]
    simp [statsCollector, CollectorResult.stats]

/-- Witness for C5: one successful batch, then a batch whose write call
fails; the run aborts with no summary. -/
theorem fatal_write_error_aborts_witness :
    (∀ j ∈ [[(2 : Nat)]],
        ((fun j => if j = [(1 : Nat)] then WriteCall.postErr ("boom")
            else WriteCall.ok 201 [] 5) j).isOk = true)
    ∧ ((fun j => if j = [(1 : Nat)] then WriteCall.postErr ("boom")
            else WriteCall.ok 201 [] 5) [(1 : Nat)]).isOk = false
    ∧ pipelineSummary
        (statsCollector 0 NewStats []
          (writeBufferWorker
            (fun j => if j = [(1 : Nat)] then WriteCall.postErr ("boom")
              else WriteCall.ok 201 [] 5)
            ([[(2 : Nat)]] ++ [(1 : Nat)] :: [[(3 : Nat)]]))) = none := by
  refine ⟨by decide, by decide, ?_⟩
  exact (fatal_write_error_aborts 0
    (fun j => if j = [(1 : Nat)] then WriteCall.postErr ("boom")
      else WriteCall.ok 201 [] 5)
    ([[(2 : Nat)]]) ([(1 : Nat)]) ([[(3 : Nat)]]) NewStats
    (by decide) (by decide)).2.1

/-- Translation of `AppConfig` (appconfig.go): database name and concurrency
level parsed from the command line (`--db`, `--concurrency`). -/
structure AppConfig where
  databaseName : String
  concurrency : Int
deriving DecidableEq

/-- Translation of the validation in `NewAppConfig` (appconfig.go): a
non-empty database name and a concurrency between 1 and 50 inclusive. -/
def validAppConfig (cfg : AppConfig) : Bool :=
  cfg.databaseName ≠ "" && 1 ≤ cfg.concurrency && cfg.concurrency ≤ 50

/-- Translation of `checkTargetDatabase` (cloudantimport.go lines 301-305):
issues `GetDatabaseInformation` for the target database (an external call,
modelled by its oracle error value) and returns its error. -/
def checkTargetDatabase (getDatabaseInformationErr : Option String) : Option String :=
  getDatabaseInformationErr

/-- Observable result of `Run`: its returned error, how many workers the
start loop launched, and the event trace of the pipeline. -/
structure RunOutcome (α : Type) where
  err : Option String
  workersStarted : Nat
  events : List (Event α)
deriving DecidableEq

/-- Translation of `Run` (cloudantimport.go lines 311-394): first the
pre-flight `checkTargetDatabase`; on error, return `errors.New("database
does not exist")` at once — before the worker-start loop, before the
collector, before any read — so no worker starts, nothing is enqueued and
nothing is printed. Otherwise start `Concurrency` workers (`for i := 0;
i < ci.appConfig.Concurrency; i++`), start the collector, and run the
producer loop followed by the shutdown sequence, as recorded by
`runTrace`. -/
def run (cfg : AppConfig) (getDatabaseInformationErr : Option String)
    (parse : String → Option α) (reads : List String) (tailText : String) :
    RunOutcome α :=
  match checkTargetDatabase getDatabaseInformationErr with
  | some _ =>
    { err := some ("database does not exist"), workersStarted := 0, events := [] }
  | none =>
    { err := none,
      workersStarted := cfg.concurrency.toNat,
      events := runTrace parse reads tailText }

/-- C6: when the pre-flight existence check fails, `Run` returns the
"database does not exist" error immediately: no worker is started, the
event trace is empty — so no batch is ever dispatched and no summary is
printed. -/
theorem preflight_failure_aborts (cfg : AppConfig) (e : String)
    (parse : String → Option α) (reads : List String) (tailText : String) :
    (run cfg (some e) parse reads tailText).err = some ("database does not exist")
    ∧ (run cfg (some e) parse reads tailText).workersStarted = 0
    ∧ (run cfg (some e) parse reads tailText).events = []
    ∧ (run cfg (some e) parse reads tailText).events.filterMap Event.batch = []
    ∧ Event.summary ∉ (run cfg (some e) parse reads tailText).events := by
  refine ⟨rfl, rfl, rfl, rfl, ?_⟩
  intro h
  simp [run, checkTargetDatabase] at h

/-- C9: the trace of a run that reaches end of input with no fatal error is
exactly the batch handoffs, then — in this strict order — the close of the
job queue (after the final batch, if any, is enqueued), the wait for all
workers, the close of the result channel, the close of the error channel,
the wait for the collector, and finally the summary emission. -/
theorem shutdown_sequence (cfg : AppConfig) (parse : String → Option α)
    (reads : List String) (tailText : String) :
    (run cfg none parse reads tailText).events
      = (handoffs parse reads tailText).map Event.enqueueBatch
          ++ [Event.closeJobs, Event.workerWait, Event.closeResults,
              Event.closeErrors, Event.collectorWait, Event.summary] := by
  show runTrace parse reads tailText = _
  rw [handoffs_eq]
  unfold runTrace
  rw [runLoopEvents_eq_chunkRun, chunkRun_eq]
  by_cases hL : (leftover [] (validDocs parse reads)).isEmpty <;>
    simp [hL, List.map_map, Function.comp_def]

/-- State of the dispatch machinery: the batches buffered in the bounded
`jobsChan` and, for each started worker goroutine, the batch it is
currently writing, if any. -/
structure PoolState (α : Type) where
  queued : List (List α)
  workers : List (Option (List α))

/-- Number of batches simultaneously under write (in flight at the external
client): the busy workers. -/
def inFlight (s : PoolState α) : Nat :=
  s.workers.countP Option.isSome

/-- Transitions implied by Go channel and goroutine semantics for the
dispatch system: the producer can enqueue on `jobsChan` only when the
bounded channel has room (else it blocks — backpressure); an idle worker
receives the head of the queue; a busy worker finishes its write. -/
inductive PoolStep {α : Type} (cap : Nat) : PoolState α → PoolState α → Prop
  | enqueue (s : PoolState α) (b : List α) (h : s.queued.length < cap) :
      PoolStep cap s { queued := s.queued ++ [b], workers := s.workers }
  | take (s : PoolState α) (b : List α) (rest : List (List α)) (i : Nat)
      (hq : s.queued = b :: rest) (hi : s.workers[i]? = some none) :
      PoolStep cap s { queued := rest, workers := s.workers.set i (some b) }
  | finish (s : PoolState α) (b : List α) (i : Nat)
      (hi : s.workers[i]? = some (some b)) :
      PoolStep cap s { queued := s.queued, workers := s.workers.set i none }

/-- States reachable from the start state `Run` creates: an empty queue and
`n` started, idle workers. -/
inductive PoolReachable {α : Type} (cap n : Nat) : PoolState α → Prop
  | init : PoolReachable cap n { queued := [], workers := List.replicate n none }
  | step {s t : PoolState α} :
      PoolReachable cap n s → PoolStep cap s t → PoolReachable cap n t

/-- Invariant of the dispatch system: the worker count never changes and the
queue never exceeds the channel capacity. -/
theorem poolReachable_invariant {cap n : Nat} {s : PoolState α}
    (h : PoolReachable cap n s) :
    s.workers.length = n ∧ s.queued.length ≤ cap := by
  induction h with
  | init => simp
  | step hr hs ih =>
    cases hs with
    | enqueue b hlt =>
      refine ⟨ih.1, ?_⟩
      simp only [List.length_append, List.length_cons, List.length_nil]
      omega
    | take b rest i hq hi =>
      refine ⟨by simpa using ih.1, ?_⟩
      have h2 := ih.2
      rw [hq] at h2
      simp only [List.length_cons] at h2
      show rest.length ≤ cap
      omega
    | finish b i hi => exact ⟨by simpa using ih.1, ih.2⟩

/-- Translation of the `jobsChan` construction in `New` (cloudantimport.go
line 232): `make(chan []cloudantv1.Document, appConfig.Concurrency)` — a
buffered channel whose capacity is the concurrency level. -/
def jobsChanCapacity (cfg : AppConfig) : Nat := cfg.concurrency.toNat

/-- Translation of the worker-start loop of `Run` (cloudantimport.go lines
320-323): `for i := 0; i < ci.appConfig.Concurrency; i++ {
go ci.writeBufferWorker() }` starts exactly `Concurrency` workers. -/
def workersStarted (cfg : AppConfig) : Nat := cfg.concurrency.toNat

/-- C8: with concurrency N (1 ≤ N ≤ 50), the job queue has bounded capacity
N (`jobsChanCapacity`) and exactly N worker tasks are started
(`workersStarted`), so in every state the dispatch system can reach, the
number of batches simultaneously under write never exceeds N — each of the
N workers writes at most one batch at a time — and the queued backlog never
exceeds N either. -/
theorem backpressure_bound (cfg : AppConfig) (s : PoolState α)
    (_hc : 1 ≤ cfg.concurrency ∧ cfg.concurrency ≤ 50)
    (hr : PoolReachable (jobsChanCapacity cfg) (workersStarted cfg) s) :
    inFlight s ≤ cfg.concurrency.toNat ∧ s.queued.length ≤ cfg.concurrency.toNat := by
  have hinv := poolReachable_invariant hr
  refine ⟨?_, hinv.2⟩
  calc inFlight s ≤ s.workers.length := List.countP_le_length _
    _ = cfg.concurrency.toNat := hinv.1

/-- Witness for C8: concurrency 2, after enqueuing one batch and a worker
taking it. -/
theorem backpressure_bound_witness :
    (1 ≤ ({ databaseName := "mydb", concurrency := 2 } : AppConfig).concurrency
        ∧ ({ databaseName := "mydb", concurrency := 2 } : AppConfig).concurrency ≤ 50)
    ∧ (inFlight ({ queued := [], workers := [some [(5 : Nat)], none] } : PoolState Nat)
          ≤ ({ databaseName := "mydb", concurrency := 2 } : AppConfig).concurrency.toNat
        ∧ ({ queued := [], workers := [some [(5 : Nat)], none] } : PoolState Nat).queued.length
          ≤ ({ databaseName := "mydb", concurrency := 2 } : AppConfig).concurrency.toNat) := by
  refine ⟨by decide, ?_⟩
  exact backpressure_bound { databaseName := "mydb", concurrency := 2 }
    { queued := [], workers := [some [(5 : Nat)], none] }
    (by decide)
    (PoolReachable.step
      (PoolReachable.step PoolReachable.init
        (PoolStep.enqueue { queued := [], workers := List.replicate 2 none }
          ([(5 : Nat)]) (by decide)))
      (PoolStep.take { queued := [] ++ [[(5 : Nat)]], workers := List.replicate 2 none }
        ([(5 : Nat)]) [] 0 rfl rfl))

end CloudantImport

